import Mathlib

/-!
Verification of the Study Plan Store of the StudyAI repository
(`nextjs-app/app/page.tsx`).  The component state that the Study Planner
handlers touch (`studyPlan`, `studyPlannerError`) is embedded as
`PlannerState`; each React handler becomes a pure state transformer taking
its inputs (and the values the browser would supply: the generated uuid,
the current time as an ISO string, and the result of JavaScript date
parsing) as explicit arguments.
-/

namespace StudyAI

/-- Goal record from `page.tsx` (`interface Goal`): dates are stored as
ISO strings, `targetDate` is nullable. -/
structure Goal where
  id : String
  description : String
  targetDate : Option String
  completed : Bool
  deriving Repr, DecidableEq

/-- StudyPlan record from `page.tsx` (`interface StudyPlan`). -/
structure StudyPlan where
  userId : String
  goals : List Goal
  subjects : List String
  lastUpdated : String
  deriving Repr, DecidableEq

/-- The slice of the component state the Study Planner handlers read and
write: the plan (null before a successful load) and the planner error
string. -/
structure PlannerState where
  studyPlan : Option StudyPlan
  studyPlannerError : Option String
  deriving Repr, DecidableEq

/-- Whitespace characters `String.prototype.trim` strips. -/
def isWsChar (c : Char) : Bool :=
  c = ' ' || c = '\t' || c = '\n' || c = '\r'

/-- JavaScript `String.prototype.trim` (a built-in), modelled by dropping
leading and trailing whitespace on the character list. -/
def jsTrim (s : String) : String :=
  String.mk (((s.data.dropWhile isWsChar).reverse.dropWhile isWsChar).reverse)

/-- Fixed user identity (`const userId = 'localUser123'`). -/
def userId : String := "localUser123"

/-- Storage key (`studyPlan_` + userId). -/
def localStorageKey : String := "studyPlan_" ++ userId

/-- The default plan the code builds inline
(`\x7b userId, goals: [], subjects: [], lastUpdated: now \x7d`). -/
def defaultPlan (now : String) : StudyPlan :=
  { userId := userId, goals := [], subjects := [], lastUpdated := now }

/-- Handler `handleAddGoal`.  `parse` models the JavaScript expression
`new Date(s).toISOString()`: `some iso` when the date parses, `none` when
`new Date` yields an Invalid Date, in which case `toISOString()` throws and
the catch block records "Failed to add goal." without touching the plan.
An empty `dateInput` (falsy in JS) yields a null `targetDate` without
parsing.  `newId` is the uuid the browser would generate. -/
def handleAddGoal (parse : String → Option String) (newId desc dateInput now : String)
    (st : PlannerState) : PlannerState :=
  if jsTrim desc = "" then st
  else if dateInput ≠ "" ∧ parse dateInput = none then
    { st with studyPlannerError := some "Failed to add goal." }
  else
    let newGoal : Goal :=
      { id := newId, description := jsTrim desc,
        targetDate := if dateInput = "" then none else parse dateInput,
        completed := false }
    let currentPlan := st.studyPlan.getD (defaultPlan now)
    { st with studyPlan := some { currentPlan with
        goals := currentPlan.goals ++ [newGoal], lastUpdated := now } }

/-- Handler `handleToggleGoalCompletion`: no-op when the plan is null;
otherwise maps over the goals flipping `completed` on every goal whose id
matches, and refreshes `lastUpdated` unconditionally. -/
def handleToggleGoalCompletion (goalId now : String) (st : PlannerState) : PlannerState :=
  match st.studyPlan with
  | none => st
  | some plan =>
    let updatedGoals := plan.goals.map fun g =>
      if g.id = goalId then { g with completed := !g.completed } else g
    { st with studyPlan := some { plan with goals := updatedGoals, lastUpdated := now } }

/-- Handler `handleDeleteGoal`: no-op when the plan is null; otherwise
filters out goals with the given id and refreshes `lastUpdated`. -/
def handleDeleteGoal (goalId now : String) (st : PlannerState) : PlannerState :=
  match st.studyPlan with
  | none => st
  | some plan =>
    { st with studyPlan := some { plan with
        goals := plan.goals.filter (fun g => g.id != goalId), lastUpdated := now } }

/-- Walk a list keeping the first occurrence of each element, `seen`
carrying the elements already kept. -/
def dedupSeen (seen : List String) : List String → List String
  | [] => []
  | x :: xs =>
    if seen.contains x then dedupSeen seen xs
    else x :: dedupSeen (x :: seen) xs

/-- First-seen-order de-duplication, the behaviour of
`Array.from(new Set(xs))` in JavaScript. -/
def dedupFirst (l : List String) : List String := dedupSeen [] l

/-- Handler `handleAddSubject`: validates the trimmed name, appends it to the
current subjects (empty when the plan is null), de-duplicates via
`Array.from(new Set(...))`, and falls back to a default plan when null. -/
def handleAddSubject (name now : String) (st : PlannerState) : PlannerState :=
  if jsTrim name = "" then st
  else
    let updatedSubjects :=
      (match st.studyPlan with | some p => p.subjects | none => []) ++ [jsTrim name]
    let currentPlan := st.studyPlan.getD (defaultPlan now)
    { st with studyPlan := some { currentPlan with
        subjects := dedupFirst updatedSubjects, lastUpdated := now } }

/-- Handler `handleDeleteSubject`: no-op when the plan is null; otherwise
removes exact string matches and refreshes `lastUpdated`. -/
def handleDeleteSubject (name now : String) (st : PlannerState) : PlannerState :=
  match st.studyPlan with
  | none => st
  | some plan =>
    { st with studyPlan := some { plan with
        subjects := plan.subjects.filter (fun s => s != name), lastUpdated := now } }

/-- Goals of the current plan (`studyPlan?.goals || []`). -/
def currentGoals (st : PlannerState) : List Goal :=
  match st.studyPlan with
  | some p => p.goals
  | none => []

/-- Subjects of the current plan (`studyPlan?.subjects || []`). -/
def currentSubjects (st : PlannerState) : List String :=
  match st.studyPlan with
  | some p => p.subjects
  | none => []

/-- Derived metric: goals with `completed = false`. -/
def incompleteGoals (goals : List Goal) : List Goal :=
  goals.filter (fun g => !g.completed)

/-- Derived metric: goals with `completed = true`. -/
def completedGoals (goals : List Goal) : List Goal :=
  goals.filter (fun g => g.completed)

/-- Derived metric `completedGoalsCount`. -/
def completedGoalsCount (goals : List Goal) : Nat :=
  (completedGoals goals).length

/-- Derived metric `totalGoalsCount`. -/
def totalGoalsCount (goals : List Goal) : Nat :=
  goals.length

/-- Derived metric `progressWidth`, the percentage shown by the progress bar
(`totalGoalsCount > 0 ? (completedGoalsCount / totalGoalsCount) * 100 : 0`). -/
def progressWidth (goals : List Goal) : Rat :=
  if totalGoalsCount goals > 0 then
    ((completedGoalsCount goals : Rat) / (totalGoalsCount goals : Rat)) * 100
  else 0

/-- The completion-ratio metric of the specification: `progressWidth`
without the presentation factor of 100. -/
def completionFraction (goals : List Goal) : Rat :=
  if totalGoalsCount goals > 0 then
    (completedGoalsCount goals : Rat) / (totalGoalsCount goals : Rat)
  else 0

/-!
Persistence text format.  The code persists the plan with `JSON.stringify`
and reads it back with `JSON.parse`; both are browser built-ins, so they are
modelled here: a JSON value tree restricted to the constructors the plan
uses (no numbers), a renderer producing the canonical no-whitespace output
of `JSON.stringify`, and a fuel-indexed parser accepting at least that
output.
-/

/-- JSON values as the plan's persisted form uses them. -/
inductive Json where
  | null : Json
  | bool : Bool → Json
  | str : String → Json
  | arr : List Json → Json
  | obj : List (String × Json) → Json
  deriving Repr

/-- Escape one character inside a JSON string literal. -/
def escChar (c : Char) : List Char :=
  if c = '"' then ['\\', '"']
  else if c = '\\' then ['\\', '\\']
  else if c = '\n' then ['\\', 'n']
  else if c = '\t' then ['\\', 't']
  else if c = '\r' then ['\\', 'r']
  else [c]

/-- Escape a whole string body. -/
def escStr : List Char → List Char
  | [] => []
  | c :: cs => escChar c ++ escStr cs

mutual

/-- Render a JSON value the way `JSON.stringify` does (no whitespace,
object keys in insertion order). -/
def renderJson : Json → List Char
  | Json.null => ['n', 'u', 'l', 'l']
  | Json.bool true => ['t', 'r', 'u', 'e']
  | Json.bool false => ['f', 'a', 'l', 's', 'e']
  | Json.str s => '"' :: (escStr s.data ++ ['"'])
  | Json.arr xs => '[' :: (renderItems xs ++ [']'])
  | Json.obj fs => '\x7b' :: (renderFields fs ++ ['\x7d'])

/-- Comma-separated rendering of array elements. -/
def renderItems : List Json → List Char
  | [] => []
  | [x] => renderJson x
  | x :: y :: ys => renderJson x ++ (',' :: renderItems (y :: ys))

/-- Comma-separated rendering of object members. -/
def renderFields : List (String × Json) → List Char
  | [] => []
  | [f] => '"' :: (escStr f.1.data ++ ('"' :: ':' :: renderJson f.2))
  | f :: g :: gs =>
    ('"' :: (escStr f.1.data ++ ('"' :: ':' :: renderJson f.2)))
      ++ (',' :: renderFields (g :: gs))

end

/-- Undo one escape character. -/
def unescChar (c : Char) : Option Char :=
  if c = '"' then some '"'
  else if c = '\\' then some '\\'
  else if c = 'n' then some '\n'
  else if c = 't' then some '\t'
  else if c = 'r' then some '\r'
  else none

/-- Parse a string body after the opening quote, returning the unescaped
characters and the remainder after the closing quote. -/
def parseStrAux : List Char → Option (List Char × List Char)
  | [] => none
  | c :: cs =>
    if c = '"' then some ([], cs)
    else if c = '\\' then
      match cs with
      | [] => none
      | e :: cs2 =>
        match unescChar e with
        | none => none
        | some d => (parseStrAux cs2).map fun p => (d :: p.1, p.2)
    else (parseStrAux cs).map fun p => (c :: p.1, p.2)

mutual

/-- Parse one JSON value; the fuel only bounds nesting depth, so any fuel
beyond the input's length suffices. -/
def parseJsonF : Nat → List Char → Option (Json × List Char)
  | 0, _ => none
  | _ + 1, [] => none
  | fuel + 1, c :: cs =>
    if c = 'n' then
      match cs with
      | d1 :: d2 :: d3 :: r =>
        if d1 = 'u' ∧ d2 = 'l' ∧ d3 = 'l' then some (Json.null, r) else none
      | _ => none
    else if c = 't' then
      match cs with
      | d1 :: d2 :: d3 :: r =>
        if d1 = 'r' ∧ d2 = 'u' ∧ d3 = 'e' then some (Json.bool true, r) else none
      | _ => none
    else if c = 'f' then
      match cs with
      | d1 :: d2 :: d3 :: d4 :: r =>
        if d1 = 'a' ∧ d2 = 'l' ∧ d3 = 's' ∧ d4 = 'e' then some (Json.bool false, r) else none
      | _ => none
    else if c = '"' then
      match parseStrAux cs with
      | none => none
      | some p => some (Json.str (String.mk p.1), p.2)
    else if c = '[' then
      match parseItemsF fuel cs with
      | none => none
      | some p => some (Json.arr p.1, p.2)
    else if c = '\x7b' then
      match parseFieldsF fuel cs with
      | none => none
      | some p => some (Json.obj p.1, p.2)
    else none

/-- Parse the contents of an array after the opening bracket. -/
def parseItemsF : Nat → List Char → Option (List Json × List Char)
  | 0, _ => none
  | _ + 1, [] => none
  | fuel + 1, c :: cs =>
    if c = ']' then some ([], cs)
    else
      match parseJsonF fuel (c :: cs) with
      | none => none
      | some jr =>
        match jr.2 with
        | [] => none
        | d :: ds =>
          if d = ',' then
            match parseItemsF fuel ds with
            | none => none
            | some p => some (jr.1 :: p.1, p.2)
          else if d = ']' then some ([jr.1], ds)
          else none

/-- Parse the contents of an object after the opening brace. -/
def parseFieldsF : Nat → List Char → Option (List (String × Json) × List Char)
  | 0, _ => none
  | _ + 1, [] => none
  | fuel + 1, c :: cs =>
    if c = '\x7d' then some ([], cs)
    else if c = '"' then
      match parseStrAux cs with
      | none => none
      | some kp =>
        match kp.2 with
        | [] => none
        | d :: ds =>
          if d = ':' then
            match parseJsonF fuel ds with
            | none => none
            | some vr =>
              match vr.2 with
              | [] => none
              | e :: es =>
                if e = ',' then
                  match parseFieldsF fuel es with
                  | none => none
                  | some p => some ((String.mk kp.1, vr.1) :: p.1, p.2)
                else if e = '\x7d' then some ([(String.mk kp.1, vr.1)], es)
                else none
          else none
    else none

end

mutual

/-- Size of a JSON value, a bound on the parser fuel it needs. -/
def sizeJ : Json → Nat
  | Json.null => 1
  | Json.bool _ => 1
  | Json.str _ => 1
  | Json.arr xs => 2 + sizeItemsJ xs
  | Json.obj fs => 2 + sizeFieldsJ fs

/-- Size of array elements. -/
def sizeItemsJ : List Json → Nat
  | [] => 0
  | x :: xs => 1 + sizeJ x + sizeItemsJ xs

/-- Size of object members. -/
def sizeFieldsJ : List (String × Json) → Nat
  | [] => 0
  | f :: fs => 1 + sizeJ f.2 + sizeFieldsJ fs

end

/-- Parse a complete JSON text (`JSON.parse`): the whole input must be one
value.  The fuel bounds nesting depth, which the input's length dominates. -/
def parseJsonText (s : String) : Option Json :=
  match parseJsonF (2 * s.length + 2) s.data with
  | some (j, []) => some j
  | _ => none

/-- The JSON object a goal serializes to, fields in declaration order. -/
def goalToJson (g : Goal) : Json :=
  Json.obj [("id", Json.str g.id), ("description", Json.str g.description),
    ("targetDate", match g.targetDate with | none => Json.null | some d => Json.str d),
    ("completed", Json.bool g.completed)]

/-- The JSON object a plan serializes to, fields in declaration order. -/
def planToJson (p : StudyPlan) : Json :=
  Json.obj [("userId", Json.str p.userId),
    ("goals", Json.arr (p.goals.map goalToJson)),
    ("subjects", Json.arr (p.subjects.map Json.str)),
    ("lastUpdated", Json.str p.lastUpdated)]

/-- `JSON.stringify` applied to a plan. -/
def serializePlan (p : StudyPlan) : String :=
  String.mk (renderJson (planToJson p))

/-- Read a goal back from its JSON form. -/
def goalFromJson : Json → Option Goal
  | Json.obj [("id", Json.str i), ("description", Json.str d),
      ("targetDate", td), ("completed", Json.bool c)] =>
    match td with
    | Json.null => some { id := i, description := d, targetDate := none, completed := c }
    | Json.str s => some { id := i, description := d, targetDate := some s, completed := c }
    | _ => none
  | _ => none

/-- A JSON string as a subject entry. -/
def jsonToStr : Json → Option String
  | Json.str s => some s
  | _ => none

/-- Map a fallible function over a list, failing when any element fails. -/
def optMapList {α β : Type} (f : α → Option β) : List α → Option (List β)
  | [] => some []
  | x :: xs =>
    match f x, optMapList f xs with
    | some b, some bs => some (b :: bs)
    | _, _ => none

/-- Read a plan back from its JSON form. -/
def planFromJson : Json → Option StudyPlan
  | Json.obj [("userId", Json.str u), ("goals", Json.arr gs),
      ("subjects", Json.arr ss), ("lastUpdated", Json.str lu)] =>
    match optMapList goalFromJson gs, optMapList jsonToStr ss with
    | some goals, some subs =>
      some { userId := u, goals := goals, subjects := subs, lastUpdated := lu }
    | _, _ => none
  | _ => none

/-- Deserialize a persisted plan text. -/
def parsePlanText (s : String) : Option StudyPlan :=
  (parseJsonText s).bind planFromJson

/-- Load-failure message of the mount effect's catch block. -/
def loadErrorMsg : String := "Failed to load study plan from local storage."

/-- Mount-time load effect.  `jsonParse` models the `JSON.parse` built-in:
`some j` when the text parses (the value the code adopts), `none` when it
throws.  `getResult` is the outcome of `localStorage.getItem`: `none` when
the read itself throws, `some none` when no value is stored,
`some (some s)` for a stored text `s`.  The code guards with
`if (storedPlan)`, a truthiness test, so a stored empty string takes the
same branch as an absent value: the default plan is constructed, adopted
and written.  `writeOk` is whether `localStorage.setItem` succeeds.
Returns the state after the effect together with the writes performed.
When the stored text parses the code adopts the parsed value without shape
validation; the typed embedding records the adopted plan via
`planFromJson`. -/
def loadOnMount (jsonParse : String → Option Json) (getResult : Option (Option String))
    (writeOk : Bool) (now : String) (st : PlannerState) :
    PlannerState × List (String × String) :=
  match getResult with
  | none => ({ st with studyPlannerError := some loadErrorMsg }, [])
  | some (some stored) =>
    if stored = "" then
      let d := defaultPlan now
      if writeOk then
        ({ st with studyPlan := some d }, [(localStorageKey, serializePlan d)])
      else
        ({ st with studyPlan := some d, studyPlannerError := some loadErrorMsg }, [])
    else
      match jsonParse stored with
      | none => ({ st with studyPlannerError := some loadErrorMsg }, [])
      | some j => ({ st with studyPlan := planFromJson j }, [])
  | some none =>
    let d := defaultPlan now
    if writeOk then
      ({ st with studyPlan := some d }, [(localStorageKey, serializePlan d)])
    else
      ({ st with studyPlan := some d, studyPlannerError := some loadErrorMsg }, [])

/-! Goal-operation sequences, for the algebraic claims. -/

/-- One user interaction with the goal handlers, carrying the values the
browser would supply (uuid, date input, timestamp). -/
inductive GoalOp where
  | addG (newId desc dateInput now : String)
  | delG (goalId now : String)
  | togG (goalId now : String)
  deriving Repr, DecidableEq

/-- Dispatch one goal operation to its handler. -/
def applyGoalOp (parse : String → Option String) : GoalOp → PlannerState → PlannerState
  | GoalOp.addG i d dt n => handleAddGoal parse i d dt n
  | GoalOp.delG g n => handleDeleteGoal g n
  | GoalOp.togG g n => handleToggleGoalCompletion g n

/-- Run a sequence of goal operations left to right. -/
def runGoalOps (parse : String → Option String) (ops : List GoalOp) (st : PlannerState) :
    PlannerState :=
  ops.foldl (fun s op => applyGoalOp parse op s) st

/-- Whether an operation deletes the given id. -/
def isDelOf (id : String) : GoalOp → Bool
  | GoalOp.delG g _ => g == id
  | _ => false

/-- Whether an operation toggles the given id. -/
def isTogOf (id : String) : GoalOp → Bool
  | GoalOp.togG g _ => g == id
  | _ => false

/-- Validity of an add per the handler: non-empty trimmed description and a
date input that is either omitted or parseable. -/
def addOk (parse : String → Option String) (desc dateInput : String) : Bool :=
  jsTrim desc != "" && (dateInput == "" || (parse dateInput).isSome)

/-- The target date an accepted add stores. -/
def specTargetDate (parse : String → Option String) (dateInput : String) : Option String :=
  if dateInput = "" then none else parse dateInput

/-- Modelled from the spec: the goals a sequence of operations leaves
behind, namely the successfully added goals that are not subsequently
deleted, in insertion order, each completed exactly when the number of
subsequent toggles with its id is odd. -/
def specGoals (parse : String → Option String) : List GoalOp → List Goal
  | [] => []
  | GoalOp.addG i d dt _ :: rest =>
    if addOk parse d dt then
      if rest.any (isDelOf i) then specGoals parse rest
      else { id := i, description := jsTrim d, targetDate := specTargetDate parse dt,
             completed := rest.countP (isTogOf i) % 2 == 1 } :: specGoals parse rest
    else specGoals parse rest
  | GoalOp.delG _ _ :: rest => specGoals parse rest
  | GoalOp.togG _ _ :: rest => specGoals parse rest

/-- How a sequence of operations transforms a goal already present: deleted
when some operation deletes its id, otherwise its completed flag XOR-ed
with the parity of the toggles against its id. -/
def evolveGoal (ops : List GoalOp) (g : Goal) : Option Goal :=
  if ops.any (isDelOf g.id) then none
  else some { g with completed := Bool.xor g.completed (ops.countP (isTogOf g.id) % 2 == 1) }

/-- Boolean duplicate-freedom check on a string list. -/
def noDupB : List String → Bool
  | [] => true
  | x :: xs => !(xs.contains x) && noDupB xs

/-- Invariant: the subjects of the current plan (if any) are
duplicate-free. -/
def subjectsOk (st : PlannerState) : Bool :=
  match st.studyPlan with
  | none => true
  | some p => noDupB p.subjects

/-- Any of the five mutation handlers, for the invariant claims. -/
inductive PlannerOp where
  | goalOp (op : GoalOp)
  | addS (name now : String)
  | delS (name now : String)
  deriving Repr, DecidableEq

/-- Dispatch any mutation operation to its handler. -/
def applyPlannerOp (parse : String → Option String) : PlannerOp → PlannerState → PlannerState
  | PlannerOp.goalOp op => applyGoalOp parse op
  | PlannerOp.addS name now => handleAddSubject name now
  | PlannerOp.delS name now => handleDeleteSubject name now

/-! Theorems.  Shared helper lemmas come first. -/

/-- Mapping a function that fixes every member is the identity. -/
theorem list_map_self {α : Type} (l : List α) (f : α → α) (h : ∀ a ∈ l, f a = a) :
    l.map f = l := by
  induction l with
  | nil => rfl
  | cons x xs ih =>
    simp only [List.map_cons, h x (List.mem_cons_self x xs)]
    rw [ih fun a ha => h a (List.mem_cons_of_mem x ha)]

/-- C7: submitting an empty or whitespace-only goal description or subject
name is silently ignored: the state, plan and error included, is returned
unchanged. -/
theorem c7_validation_noop (parse : String → Option String)
    (newId desc dateInput name now : String) (st : PlannerState)
    (hd : jsTrim desc = "") (hn : jsTrim name = "") :
    handleAddGoal parse newId desc dateInput now st = st ∧
    handleAddSubject name now st = st := by
  constructor
  · simp [handleAddGoal, hd]
  · simp [handleAddSubject, hn]

/-- Witness for C7 at whitespace-only inputs. -/
theorem c7_validation_noop_witness :
    handleAddGoal (fun _ => none) "u1" "   " "" "T1" ⟨none, none⟩ = ⟨none, none⟩ ∧
    handleAddSubject " " "T1" ⟨none, none⟩ = ⟨none, none⟩ :=
  c7_validation_noop (fun _ => none) "u1" "   " "" " " "T1" ⟨none, none⟩
    (by decide) (by decide)

/-- C6: the completion metric is 0 on an empty goal list, equals
completed/total otherwise, lies in [0, 1], and the rendered progress width
is exactly 100 times it. -/
theorem c6_completion_metric (goals : List Goal) :
    (goals = [] → completionFraction goals = 0) ∧
    (goals ≠ [] → completionFraction goals =
      (completedGoalsCount goals : Rat) / (totalGoalsCount goals : Rat)) ∧
    0 ≤ completionFraction goals ∧ completionFraction goals ≤ 1 ∧
    progressWidth goals = completionFraction goals * 100 := by
  have hle : completedGoalsCount goals ≤ totalGoalsCount goals :=
    List.length_filter_le _ _
  refine ⟨?_, ?_, ?_, ?_, ?_⟩
  · intro h; simp [completionFraction, totalGoalsCount, h]
  · intro h
    have hpos : totalGoalsCount goals > 0 := by
      simpa [totalGoalsCount, List.length_pos] using h
    simp [completionFraction, hpos]
  · unfold completionFraction
    split
    · positivity
    · exact le_refl 0
  · unfold completionFraction
    split
    · rename_i hpos
      apply div_le_one_of_le₀
      · exact_mod_cast hle
      · positivity
    · exact zero_le_one
  · unfold progressWidth completionFraction
    split <;> ring

/-- Witness for C6 on an empty and a one-goal list. -/
theorem c6_completion_metric_witness :
    completionFraction [] = 0 ∧
    completionFraction [⟨"g", "d", none, true⟩] =
      (completedGoalsCount [⟨"g", "d", none, true⟩] : Rat) /
        (totalGoalsCount [⟨"g", "d", none, true⟩] : Rat) :=
  ⟨(c6_completion_metric []).1 rfl,
   (c6_completion_metric [⟨"g", "d", none, true⟩]).2.1 (by decide)⟩

/-- Membership in the de-duplicating walk: kept exactly when present in the
remaining input and not already seen. -/
theorem mem_dedupSeen (a : String) : ∀ (l seen : List String),
    a ∈ dedupSeen seen l ↔ a ∈ l ∧ a ∉ seen := by
  intro l
  induction l with
  | nil => simp [dedupSeen]
  | cons x xs ih =>
    intro seen
    by_cases hx : x ∈ seen
    · rw [show dedupSeen seen (x :: xs) = dedupSeen seen xs from by simp [dedupSeen, hx], ih]
      constructor
      · exact fun h => ⟨List.mem_cons_of_mem x h.1, h.2⟩
      · rintro ⟨h1, h2⟩
        rcases List.mem_cons.mp h1 with h | h
        · exact absurd (h ▸ hx) h2
        · exact ⟨h, h2⟩
    · rw [show dedupSeen seen (x :: xs) = x :: dedupSeen (x :: seen) xs from by
        simp [dedupSeen, hx]]
      by_cases hax : a = x
      · subst hax
        simp [ih, hx]
      · simp [List.mem_cons, ih, hax]

/-- The de-duplicating walk never produces duplicates. -/
theorem dedupSeen_nodup : ∀ (l seen : List String), (dedupSeen seen l).Nodup := by
  intro l
  induction l with
  | nil => intro seen; simp [dedupSeen]
  | cons x xs ih =>
    intro seen
    by_cases hx : x ∈ seen
    · rw [show dedupSeen seen (x :: xs) = dedupSeen seen xs from by simp [dedupSeen, hx]]
      exact ih seen
    · rw [show dedupSeen seen (x :: xs) = x :: dedupSeen (x :: seen) xs from by
        simp [dedupSeen, hx]]
      refine List.nodup_cons.mpr ⟨?_, ih (x :: seen)⟩
      rw [mem_dedupSeen]
      rintro ⟨_, h2⟩
      exact h2 (List.mem_cons_self x seen)

/-- `dedupFirst` keeps exactly the elements of its input. -/
theorem mem_dedupFirst (a : String) (l : List String) : a ∈ dedupFirst l ↔ a ∈ l := by
  simp [dedupFirst, mem_dedupSeen]

/-- `dedupFirst` never produces duplicates. -/
theorem dedupFirst_nodup (l : List String) : (dedupFirst l).Nodup :=
  dedupSeen_nodup l []

/-- Each element of the input occurs exactly once after `dedupFirst`. -/
theorem count_dedupFirst (a : String) (l : List String) (h : a ∈ l) :
    (dedupFirst l).count a = 1 :=
  List.count_eq_one_of_mem (dedupFirst_nodup l) ((mem_dedupFirst a l).mpr h)

/-- Appending an element already present or already seen does not change
the de-duplicating walk. -/
theorem dedupSeen_append_mem : ∀ (l seen : List String) (t : String),
    t ∈ l ∨ t ∈ seen → dedupSeen seen (l ++ [t]) = dedupSeen seen l := by
  intro l
  induction l with
  | nil =>
    intro seen t ht
    have hts : t ∈ seen := by
      rcases ht with h | h
      · exact absurd h (List.not_mem_nil t)
      · exact h
    simp [dedupSeen, hts]
  | cons x xs ih =>
    intro seen t ht
    by_cases hx : x ∈ seen
    · have e1 : dedupSeen seen ((x :: xs) ++ [t]) = dedupSeen seen (xs ++ [t]) := by
        simp [dedupSeen, hx]
      have e2 : dedupSeen seen (x :: xs) = dedupSeen seen xs := by simp [dedupSeen, hx]
      rw [e1, e2]
      refine ih seen t ?_
      rcases ht with h | h
      · rcases List.mem_cons.mp h with h1 | h1
        · exact Or.inr (h1 ▸ hx)
        · exact Or.inl h1
      · exact Or.inr h
    · have e1 : dedupSeen seen ((x :: xs) ++ [t]) = x :: dedupSeen (x :: seen) (xs ++ [t]) := by
        simp [dedupSeen, hx]
      have e2 : dedupSeen seen (x :: xs) = x :: dedupSeen (x :: seen) xs := by
        simp [dedupSeen, hx]
      rw [e1, e2]
      congr 1
      refine ih (x :: seen) t ?_
      rcases ht with h | h
      · rcases List.mem_cons.mp h with h1 | h1
        · exact Or.inr (h1 ▸ List.mem_cons_self x seen)
        · exact Or.inl h1
      · exact Or.inr (List.mem_cons_of_mem x h)

/-- The de-duplicating walk is the identity on a duplicate-free list
disjoint from `seen`. -/
theorem dedupSeen_eq_self : ∀ (l seen : List String),
    l.Nodup → (∀ a ∈ l, a ∉ seen) → dedupSeen seen l = l := by
  intro l
  induction l with
  | nil => intro seen _ _; rfl
  | cons x xs ih =>
    intro seen hnd hdisj
    have hx : x ∉ seen := hdisj x (List.mem_cons_self x xs)
    rw [List.nodup_cons] at hnd
    rw [show dedupSeen seen (x :: xs) = x :: dedupSeen (x :: seen) xs from by
      simp [dedupSeen, hx]]
    congr 1
    refine ih (x :: seen) hnd.2 ?_
    intro a ha
    rw [List.mem_cons]
    rintro (h | h)
    · exact hnd.1 (h ▸ ha)
    · exact hdisj a (List.mem_cons_of_mem x ha) h

/-- Re-appending an element of the input to an already de-duplicated list
and de-duplicating again changes nothing. -/
theorem dedupFirst_append_self (l : List String) (t : String) (h : t ∈ l) :
    dedupFirst (dedupFirst l ++ [t]) = dedupFirst l := by
  rw [dedupFirst, dedupSeen_append_mem _ _ _ (Or.inl ((mem_dedupFirst t l).mpr h))]
  exact dedupSeen_eq_self _ [] (dedupFirst_nodup l) (by simp)

/-- The boolean duplicate check agrees with `List.Nodup`. -/
theorem noDupB_iff (l : List String) : noDupB l = true ↔ l.Nodup := by
  induction l with
  | nil => simp [noDupB]
  | cons x xs ih => simp [noDupB, List.nodup_cons, ih]

/-- C4 counterexample: toggling or deleting a goal id that does not exist is
not a no-op on the whole plan, because `lastUpdated` is still refreshed. -/
theorem c4_counterexample :
    handleToggleGoalCompletion "zz" "T1"
        ⟨some ⟨"localUser123", [⟨"g1", "d", none, false⟩], [], "T0"⟩, none⟩ ≠
      ⟨some ⟨"localUser123", [⟨"g1", "d", none, false⟩], [], "T0"⟩, none⟩ ∧
    handleDeleteGoal "zz" "T1"
        ⟨some ⟨"localUser123", [⟨"g1", "d", none, false⟩], [], "T0"⟩, none⟩ ≠
      ⟨some ⟨"localUser123", [⟨"g1", "d", none, false⟩], [], "T0"⟩, none⟩ := by
  constructor <;> decide

/-- C4 as amended: on an initialized plan, toggle flips `completed` exactly
on the goals with the given id and delete removes exactly those goals; both
always set `lastUpdated` to the current time, so when the id is absent the
goals are unchanged but the plan still gets a fresh `lastUpdated`. -/
theorem c4_toggle_delete (goalId now : String) (p : StudyPlan) (e : Option String) :
    handleToggleGoalCompletion goalId now ⟨some p, e⟩ =
      ⟨some { p with
              goals := p.goals.map (fun g =>
                if g.id = goalId then { g with completed := !g.completed } else g),
              lastUpdated := now }, e⟩ ∧
    handleDeleteGoal goalId now ⟨some p, e⟩ =
      ⟨some { p with
              goals := p.goals.filter (fun g => g.id != goalId),
              lastUpdated := now }, e⟩ ∧
    ((∀ g ∈ p.goals, g.id ≠ goalId) →
      (handleToggleGoalCompletion goalId now ⟨some p, e⟩).studyPlan =
        some { p with lastUpdated := now } ∧
      (handleDeleteGoal goalId now ⟨some p, e⟩).studyPlan =
        some { p with lastUpdated := now }) := by
  refine ⟨rfl, rfl, fun hids => ⟨?_, ?_⟩⟩
  · have hmap : (p.goals.map fun g =>
        if g.id = goalId then { g with completed := !g.completed } else g) = p.goals := by
      apply list_map_self
      intro g hg
      simp [hids g hg]
    simp [handleToggleGoalCompletion, hmap]
  · have hfil : p.goals.filter (fun g => g.id != goalId) = p.goals := by
      rw [List.filter_eq_self]
      intro g hg
      simpa using hids g hg
    simp [handleDeleteGoal, hfil]

/-- Witness for C4 at a plan not containing the toggled id. -/
theorem c4_toggle_delete_witness :
    (handleToggleGoalCompletion "zz" "T1"
        ⟨some ⟨"u", [⟨"g1", "d", none, false⟩], [], "T0"⟩, none⟩).studyPlan =
      some ⟨"u", [⟨"g1", "d", none, false⟩], [], "T1"⟩ ∧
    (handleDeleteGoal "zz" "T1"
        ⟨some ⟨"u", [⟨"g1", "d", none, false⟩], [], "T0"⟩, none⟩).studyPlan =
      some ⟨"u", [⟨"g1", "d", none, false⟩], [], "T1"⟩ :=
  (c4_toggle_delete "zz" "T1" ⟨"u", [⟨"g1", "d", none, false⟩], [], "T0"⟩ none).2.2
    (by decide)

/-- C10: with no plan initialized, addGoal and addSubject fall back to a
fresh default plan (fixed user id, empty goals and subjects, current time)
and apply the mutation to it, while toggle, deleteGoal and deleteSubject
return without any effect. -/
theorem c10_null_plan (parse : String → Option String)
    (newId desc dateInput name now : String) (e : Option String)
    (hd : jsTrim desc ≠ "") (hdt : dateInput = "" ∨ (parse dateInput).isSome)
    (hn : jsTrim name ≠ "") :
    handleAddGoal parse newId desc dateInput now ⟨none, e⟩ =
      ⟨some { userId := userId,
              goals := [⟨newId, jsTrim desc, specTargetDate parse dateInput, false⟩],
              subjects := [], lastUpdated := now }, e⟩ ∧
    handleAddSubject name now ⟨none, e⟩ =
      ⟨some { userId := userId, goals := [], subjects := [jsTrim name],
              lastUpdated := now }, e⟩ ∧
    (∀ goalId, handleToggleGoalCompletion goalId now ⟨none, e⟩ = ⟨none, e⟩) ∧
    (∀ goalId, handleDeleteGoal goalId now ⟨none, e⟩ = ⟨none, e⟩) ∧
    (∀ s, handleDeleteSubject s now ⟨none, e⟩ = ⟨none, e⟩) := by
  have hno : ¬(dateInput ≠ "" ∧ parse dateInput = none) := by
    rcases hdt with h | h
    · simp [h]
    · rcases Option.isSome_iff_exists.mp h with ⟨v, hv⟩
      simp [hv]
  refine ⟨?_, ?_, fun _ => rfl, fun _ => rfl, fun _ => rfl⟩
  · simp [handleAddGoal, hd, hno, defaultPlan, specTargetDate]
  · simp [handleAddSubject, hn, defaultPlan, dedupFirst, dedupSeen]

/-- Witness for C10 at concrete inputs. -/
theorem c10_null_plan_witness :
    handleAddGoal (fun s => some (s ++ "Z")) "u1" "Learn" "2025-06-01" "T1" ⟨none, none⟩ =
      ⟨some { userId := userId,
              goals := [⟨"u1", jsTrim "Learn",
                specTargetDate (fun s => some (s ++ "Z")) "2025-06-01", false⟩],
              subjects := [], lastUpdated := "T1" }, none⟩ ∧
    handleAddSubject "Biology" "T1" ⟨none, none⟩ =
      ⟨some { userId := userId, goals := [], subjects := [jsTrim "Biology"],
              lastUpdated := "T1" }, none⟩ ∧
    (∀ goalId, handleToggleGoalCompletion goalId "T1" ⟨none, none⟩ = ⟨none, none⟩) ∧
    (∀ goalId, handleDeleteGoal goalId "T1" ⟨none, none⟩ = ⟨none, none⟩) ∧
    (∀ s, handleDeleteSubject s "T1" ⟨none, none⟩ = ⟨none, none⟩) :=
  c10_null_plan (fun s => some (s ++ "Z")) "u1" "Learn" "2025-06-01" "Biology" "T1" none
    (by decide) (by decide) (by decide)

/-- C3 counterexample: a non-empty date input that fails to parse makes the
add fail (catch block records the error, plan untouched) instead of storing
a null target date. -/
theorem c3_counterexample :
    handleAddGoal (fun _ => none) "u1" "Learn" "not-a-date" "T1"
        ⟨some (defaultPlan "T0"), none⟩ =
      ⟨some (defaultPlan "T0"), some "Failed to add goal."⟩ := by
  decide

/-- C3 as amended: with a non-empty trimmed description, addGoal appends a
goal with the given fresh id, `completed = false`, and `targetDate` the
parsed ISO string, or null when the date input is omitted; when the date
input is non-empty but unparseable the operation fails, leaving the plan
unchanged and recording the error "Failed to add goal.". -/
theorem c3_add_goal (parse : String → Option String) (newId desc dateInput now : String)
    (p : StudyPlan) (e : Option String) (hd : jsTrim desc ≠ "") :
    (dateInput = "" →
      handleAddGoal parse newId desc dateInput now ⟨some p, e⟩ =
        ⟨some { p with
                goals := p.goals ++ [⟨newId, jsTrim desc, none, false⟩],
                lastUpdated := now }, e⟩) ∧
    (∀ iso, parse dateInput = some iso →
      handleAddGoal parse newId desc dateInput now ⟨some p, e⟩ =
        ⟨some { p with
                goals := p.goals ++
                  [⟨newId, jsTrim desc, specTargetDate parse dateInput, false⟩],
                lastUpdated := now }, e⟩) ∧
    (dateInput ≠ "" → parse dateInput = none →
      handleAddGoal parse newId desc dateInput now ⟨some p, e⟩ =
        ⟨some p, some "Failed to add goal."⟩) := by
  refine ⟨?_, ?_, ?_⟩
  · intro h
    simp [handleAddGoal, hd, h]
  · intro iso hiso
    simp [handleAddGoal, hd, hiso, specTargetDate]
  · intro h hnone
    simp [handleAddGoal, hd, h, hnone]

/-- Witness for C3 at a parseable date input. -/
theorem c3_add_goal_witness :
    handleAddGoal (fun s => some (s ++ "Z")) "u1" "Learn" "2025-06-01" "T1"
        ⟨some (defaultPlan "T0"), none⟩ =
      ⟨some { defaultPlan "T0" with
              goals := (defaultPlan "T0").goals ++
                [⟨"u1", jsTrim "Learn",
                  specTargetDate (fun s => some (s ++ "Z")) "2025-06-01", false⟩],
              lastUpdated := "T1" }, none⟩ :=
  (c3_add_goal (fun s => some (s ++ "Z")) "u1" "Learn" "2025-06-01" "T1"
    (defaultPlan "T0") none (by decide)).2.1 "2025-06-01Z" rfl

/-- C2 counterexample: a stored value on which `JSON.parse` throws (the
text "x" is not valid JSON) only records the load error; no default plan
is constructed, nothing is written, and the in-memory plan stays
uninitialized. -/
theorem c2_counterexample :
    (loadOnMount parseJsonText (some (some "x")) true "T0" ⟨none, none⟩).1.studyPlan =
      none ∧
    (loadOnMount parseJsonText
      (some (some "x")) true "T0" ⟨none, none⟩).1.studyPlannerError =
      some loadErrorMsg ∧
    (loadOnMount parseJsonText (some (some "x")) true "T0" ⟨none, none⟩).2 = [] := by
  refine ⟨?_, ?_, ?_⟩ <;> decide

/-- C2 as amended: when the stored value is absent or the empty string
(both falsy under the `if (storedPlan)` guard) the store builds the
default plan and writes it immediately, and stays usable on that default
even if the write fails, surfacing the error; when the storage read
throws, or a non-empty stored text makes `JSON.parse` throw, the load
error is surfaced, the module does not crash, and the plan stays
uninitialized rather than falling back to a default; a non-empty stored
text that parses is adopted as the plan with no error. -/
theorem c2_load (jsonParse : String → Option Json) (now : String) (b : Bool) :
    loadOnMount jsonParse (some none) true now ⟨none, none⟩ =
      (⟨some (defaultPlan now), none⟩,
        [(localStorageKey, serializePlan (defaultPlan now))]) ∧
    loadOnMount jsonParse (some (some "")) true now ⟨none, none⟩ =
      (⟨some (defaultPlan now), none⟩,
        [(localStorageKey, serializePlan (defaultPlan now))]) ∧
    loadOnMount jsonParse (some none) false now ⟨none, none⟩ =
      (⟨some (defaultPlan now), some loadErrorMsg⟩, []) ∧
    loadOnMount jsonParse (some (some "")) false now ⟨none, none⟩ =
      (⟨some (defaultPlan now), some loadErrorMsg⟩, []) ∧
    loadOnMount jsonParse none b now ⟨none, none⟩ = (⟨none, some loadErrorMsg⟩, []) ∧
    (∀ s, ¬ s = "" → jsonParse s = none →
      loadOnMount jsonParse (some (some s)) b now ⟨none, none⟩ =
        (⟨none, some loadErrorMsg⟩, [])) ∧
    (∀ s j, ¬ s = "" → jsonParse s = some j →
      loadOnMount jsonParse (some (some s)) b now ⟨none, none⟩ =
        (⟨planFromJson j, none⟩, [])) := by
  refine ⟨rfl, rfl, rfl, rfl, rfl, ?_, ?_⟩
  · intro s hne hs
    simp [loadOnMount, hne, hs]
  · intro s j hne hs
    simp [loadOnMount, hne, hs]

/-- Witness for C2 at the unparseable stored text "x" and the parseable
stored text "null", with the JSON built-in instantiated to the model
parser. -/
theorem c2_load_witness :
    loadOnMount parseJsonText (some (some "x")) true "T0" ⟨none, none⟩ =
      (⟨none, some loadErrorMsg⟩, []) ∧
    loadOnMount parseJsonText (some (some "null")) true "T0" ⟨none, none⟩ =
      (⟨planFromJson Json.null, none⟩, []) :=
  ⟨(c2_load parseJsonText "T0" true).2.2.2.2.2.1 "x" (by decide) (by rfl),
   (c2_load parseJsonText "T0" true).2.2.2.2.2.2 "null" Json.null (by decide) (by rfl)⟩

/-- C5: addSubject with a non-empty trimmed name appends the trimmed name
and de-duplicates preserving first-seen order; the result holds the name
exactly once, and adding the same name again leaves the subjects unchanged
(idempotence with respect to set membership). -/
theorem c5_add_subject (name now now2 : String) (p : StudyPlan) (e : Option String)
    (hn : jsTrim name ≠ "") :
    handleAddSubject name now ⟨some p, e⟩ =
      ⟨some { p with
              subjects := dedupFirst (p.subjects ++ [jsTrim name]),
              lastUpdated := now }, e⟩ ∧
    (dedupFirst (p.subjects ++ [jsTrim name])).count (jsTrim name) = 1 ∧
    currentSubjects (handleAddSubject name now2 (handleAddSubject name now ⟨some p, e⟩)) =
      currentSubjects (handleAddSubject name now ⟨some p, e⟩) := by
  have h1 : handleAddSubject name now ⟨some p, e⟩ =
      ⟨some { p with
              subjects := dedupFirst (p.subjects ++ [jsTrim name]),
              lastUpdated := now }, e⟩ := by
    simp [handleAddSubject, hn]
  refine ⟨h1, ?_, ?_⟩
  · exact count_dedupFirst _ _ (by simp)
  · rw [h1]
    have h2 : handleAddSubject name now2
        (⟨some { p with
                 subjects := dedupFirst (p.subjects ++ [jsTrim name]),
                 lastUpdated := now }, e⟩ : PlannerState) =
        ⟨some { p with
                subjects := dedupFirst (dedupFirst (p.subjects ++ [jsTrim name]) ++
                  [jsTrim name]),
                lastUpdated := now2 }, e⟩ := by
      simp [handleAddSubject, hn]
    rw [h2]
    simp only [currentSubjects]
    exact dedupFirst_append_self (p.subjects ++ [jsTrim name]) (jsTrim name) (by simp)

/-- Witness for C5 adding "Biology" twice to an empty plan. -/
theorem c5_add_subject_witness :
    handleAddSubject "Biology" "T1" ⟨some (defaultPlan "T0"), none⟩ =
      ⟨some { defaultPlan "T0" with
              subjects := dedupFirst ((defaultPlan "T0").subjects ++ [jsTrim "Biology"]),
              lastUpdated := "T1" }, none⟩ ∧
    (dedupFirst ((defaultPlan "T0").subjects ++ [jsTrim "Biology"])).count
      (jsTrim "Biology") = 1 ∧
    currentSubjects (handleAddSubject "Biology" "T2"
        (handleAddSubject "Biology" "T1" ⟨some (defaultPlan "T0"), none⟩)) =
      currentSubjects (handleAddSubject "Biology" "T1" ⟨some (defaultPlan "T0"), none⟩) :=
  c5_add_subject "Biology" "T1" "T2" (defaultPlan "T0") none (by decide)

/-- C9: duplicate-freedom of `subjects` is an invariant: the default plan
satisfies it and every one of the five mutation handlers preserves it. -/
theorem c9_subjects_nodup (parse : String → Option String) (op : PlannerOp)
    (st : PlannerState) (now : String) (h : subjectsOk st = true) :
    noDupB (defaultPlan now).subjects = true ∧
    subjectsOk (applyPlannerOp parse op st) = true := by
  refine ⟨rfl, ?_⟩
  have hplan : ∀ q, st.studyPlan = some q → q.subjects.Nodup := by
    intro q hq
    rw [subjectsOk, hq] at h
    exact (noDupB_iff q.subjects).mp h
  cases op with
  | goalOp gop =>
    cases gop with
    | addG i d dt n =>
      by_cases hd : jsTrim d = ""
      · simpa [applyPlannerOp, applyGoalOp, handleAddGoal, hd] using h
      · by_cases herr : dt ≠ "" ∧ parse dt = none
        · simp only [applyPlannerOp, applyGoalOp, handleAddGoal, if_neg hd, if_pos herr]
          simpa [subjectsOk] using h
        · cases hst : st.studyPlan with
          | none =>
            simp [applyPlannerOp, applyGoalOp, handleAddGoal, hd, herr, hst, subjectsOk,
              defaultPlan, noDupB]
          | some q =>
            simp only [applyPlannerOp, applyGoalOp, handleAddGoal, if_neg hd, if_neg herr,
              hst, subjectsOk, Option.getD_some]
            exact (noDupB_iff q.subjects).mpr (hplan q hst)
    | delG g n =>
      cases hst : st.studyPlan with
      | none => simpa [applyPlannerOp, applyGoalOp, handleDeleteGoal, hst] using h
      | some q =>
        simp only [applyPlannerOp, applyGoalOp, handleDeleteGoal, hst, subjectsOk]
        exact (noDupB_iff q.subjects).mpr (hplan q hst)
    | togG g n =>
      cases hst : st.studyPlan with
      | none => simpa [applyPlannerOp, applyGoalOp, handleToggleGoalCompletion, hst] using h
      | some q =>
        simp only [applyPlannerOp, applyGoalOp, handleToggleGoalCompletion, hst, subjectsOk]
        exact (noDupB_iff q.subjects).mpr (hplan q hst)
  | addS name n =>
    by_cases hn : jsTrim name = ""
    · simpa [applyPlannerOp, handleAddSubject, hn] using h
    · cases hst : st.studyPlan with
      | none =>
        simp only [applyPlannerOp, handleAddSubject, if_neg hn, hst, subjectsOk,
          Option.getD_none]
        exact (noDupB_iff _).mpr (dedupFirst_nodup _)
      | some q =>
        simp only [applyPlannerOp, handleAddSubject, if_neg hn, hst, subjectsOk,
          Option.getD_some]
        exact (noDupB_iff _).mpr (dedupFirst_nodup _)
  | delS name n =>
    cases hst : st.studyPlan with
    | none => simpa [applyPlannerOp, handleDeleteSubject, hst] using h
    | some q =>
      simp only [applyPlannerOp, handleDeleteSubject, hst, subjectsOk]
      exact (noDupB_iff _).mpr ((hplan q hst).filter _)

/-- Witness for C9 at an addSubject on a plan already holding the subject. -/
theorem c9_subjects_nodup_witness :
    noDupB (defaultPlan "T0").subjects = true ∧
    subjectsOk (applyPlannerOp (fun _ => none) (PlannerOp.addS "Biology" "T1")
      ⟨some ⟨"u", [], ["Biology"], "T0"⟩, none⟩) = true :=
  c9_subjects_nodup (fun _ => none) (PlannerOp.addS "Biology" "T1")
    ⟨some ⟨"u", [], ["Biology"], "T0"⟩, none⟩ "T0" (by decide)

/-- A sequence without operations leaves a goal as it is. -/
theorem evolveGoal_nil (g : Goal) : evolveGoal [] g = some g := by
  simp [evolveGoal]

/-- A leading delete of the goal's id deletes it. -/
theorem evolveGoal_cons_del (i n : String) (ops : List GoalOp) (g : Goal) (h : g.id = i) :
    evolveGoal (GoalOp.delG i n :: ops) g = none := by
  simp [evolveGoal, isDelOf, h]

/-- Parity commutes with one extra toggle. -/
theorem xor_succ_parity (c : Bool) (k : Nat) :
    Bool.xor c ((k + 1) % 2 == 1) = Bool.xor (!c) (k % 2 == 1) := by
  rcases Nat.mod_two_eq_zero_or_one k with h | h
  · have h1 : (k + 1) % 2 = 1 := by omega
    rw [h, h1]
    cases c <;> rfl
  · have h1 : (k + 1) % 2 = 0 := by omega
    rw [h, h1]
    cases c <;> rfl

/-- A leading toggle of the goal's id flips it before the rest acts. -/
theorem evolveGoal_cons_tog (i n : String) (ops : List GoalOp) (g : Goal) (h : g.id = i) :
    evolveGoal (GoalOp.togG i n :: ops) g =
      evolveGoal ops { g with completed := !g.completed } := by
  have hdel : isDelOf g.id (GoalOp.togG i n) = false := rfl
  have htog : isTogOf g.id (GoalOp.togG i n) = true := by
    simp [isTogOf, h]
  unfold evolveGoal
  simp only [List.any_cons, List.countP_cons, hdel, htog, Bool.false_or, if_pos,
    eq_self_iff_true, if_true]
  split
  · rfl
  · rw [xor_succ_parity]

/-- A leading operation that neither deletes nor toggles the goal's id is
transparent to it. -/
theorem evolveGoal_cons_other (op : GoalOp) (ops : List GoalOp) (g : Goal)
    (hdel : isDelOf g.id op = false) (htog : isTogOf g.id op = false) :
    evolveGoal (op :: ops) g = evolveGoal ops g := by
  simp [evolveGoal, hdel, htog, List.countP_cons]

/-- Pointwise equal functions give equal filterMaps. -/
theorem list_filterMap_congr {α β : Type} (l : List α) (f g : α → Option β)
    (h : ∀ a ∈ l, f a = g a) : l.filterMap f = l.filterMap g := by
  induction l with
  | nil => rfl
  | cons x xs ih =>
    rw [List.filterMap_cons, List.filterMap_cons, h x (List.mem_cons_self x xs),
      ih fun a ha => h a (List.mem_cons_of_mem x ha)]

/-- filterMap after filter folds into one filterMap. -/
theorem list_filterMap_filter {α β : Type} (l : List α) (q : α → Bool) (f : α → Option β) :
    (l.filter q).filterMap f = l.filterMap fun a => if q a then f a else none := by
  induction l with
  | nil => rfl
  | cons x xs ih =>
    by_cases hq : q x
    · simp [List.filter_cons, hq, List.filterMap_cons, ih]
    · simp [List.filter_cons, hq, List.filterMap_cons, ih]

/-- filterMap after map folds into one filterMap. -/
theorem list_filterMap_after_map {α β γ : Type} (l : List α) (g : α → β) (f : β → Option γ) :
    (l.map g).filterMap f = l.filterMap fun a => f (g a) := by
  induction l with
  | nil => rfl
  | cons x xs ih => simp [List.filterMap_cons, ih]

/-- Running a goal-operation sequence from any initialized state keeps the
plan initialized and produces exactly: the initial goals as `evolveGoal`
transforms them, followed by the surviving added goals of `specGoals`. -/
theorem runGoalOps_goals (parse : String → Option String) : ∀ (ops : List GoalOp)
    (p : StudyPlan) (e : Option String),
    ∃ p' e', runGoalOps parse ops ⟨some p, e⟩ = ⟨some p', e'⟩ ∧
      p'.goals = p.goals.filterMap (evolveGoal ops) ++ specGoals parse ops := by
  intro ops
  induction ops with
  | nil =>
    intro p e
    refine ⟨p, e, rfl, ?_⟩
    rw [show specGoals parse [] = [] from rfl, List.append_nil,
      list_filterMap_congr _ _ _ fun g _ => evolveGoal_nil g]
    simp
  | cons op rest ih =>
    intro p e
    have hrun : ∀ st, runGoalOps parse (op :: rest) st =
        runGoalOps parse rest (applyGoalOp parse op st) := fun _ => rfl
    cases op with
    | addG i d dt n =>
      by_cases hd : jsTrim d = ""
      · have happ : applyGoalOp parse (GoalOp.addG i d dt n) ⟨some p, e⟩ = ⟨some p, e⟩ := by
          simp [applyGoalOp, handleAddGoal, hd]
        obtain ⟨p', e', hrun', hg⟩ := ih p e
        refine ⟨p', e', by rw [hrun, happ, hrun'], ?_⟩
        rw [hg,
          list_filterMap_congr _ (evolveGoal (GoalOp.addG i d dt n :: rest)) (evolveGoal rest)
            (fun a _ => evolveGoal_cons_other (GoalOp.addG i d dt n) rest a rfl rfl),
          show specGoals parse (GoalOp.addG i d dt n :: rest) = specGoals parse rest from by
            simp [specGoals, addOk, hd]]
      · by_cases herr : dt ≠ "" ∧ parse dt = none
        · have happ : applyGoalOp parse (GoalOp.addG i d dt n) ⟨some p, e⟩ =
              ⟨some p, some "Failed to add goal."⟩ := by
            simp [applyGoalOp, handleAddGoal, hd, herr]
          obtain ⟨p', e', hrun', hg⟩ := ih p (some "Failed to add goal.")
          refine ⟨p', e', by rw [hrun, happ, hrun'], ?_⟩
          rw [hg,
            list_filterMap_congr _ (evolveGoal (GoalOp.addG i d dt n :: rest)) (evolveGoal rest)
              (fun a _ => evolveGoal_cons_other (GoalOp.addG i d dt n) rest a rfl rfl),
            show specGoals parse (GoalOp.addG i d dt n :: rest) = specGoals parse rest from by
              simp [specGoals, addOk, hd, herr.1, herr.2]]
        · have hok : addOk parse d dt = true := by
            rcases Decidable.not_and_iff_or_not.mp herr with h | h
            · have hdt : dt = "" := by
                by_contra hne
                exact h hne
              simp [addOk, hd, hdt]
            · have hsome : (parse dt).isSome = true := by
                cases hp : parse dt with
                | none => exact absurd hp h
                | some v => rfl
              simp [addOk, hd, hsome]
          have happ : applyGoalOp parse (GoalOp.addG i d dt n) ⟨some p, e⟩ =
              ⟨some { p with
                      goals := p.goals ++
                        [⟨i, jsTrim d, specTargetDate parse dt, false⟩],
                      lastUpdated := n }, e⟩ := by
            simp [applyGoalOp, handleAddGoal, hd, herr, specTargetDate]
          obtain ⟨p', e', hrun', hg⟩ := ih
            { p with
              goals := p.goals ++ [⟨i, jsTrim d, specTargetDate parse dt, false⟩],
              lastUpdated := n } e
          refine ⟨p', e', by rw [hrun, happ, hrun'], ?_⟩
          rw [hg]
          simp only [List.filterMap_append]
          rw [list_filterMap_congr p.goals (evolveGoal rest)
            (evolveGoal (GoalOp.addG i d dt n :: rest))
            (fun a _ => (evolveGoal_cons_other (GoalOp.addG i d dt n) rest a rfl rfl).symm)]
          by_cases hdel : rest.any (isDelOf i)
          · have e3 : List.filterMap (evolveGoal rest)
                [⟨i, jsTrim d, specTargetDate parse dt, false⟩] = [] := by
              simp [List.filterMap_cons, evolveGoal, hdel]
            have e2 : specGoals parse (GoalOp.addG i d dt n :: rest) = specGoals parse rest := by
              simp [specGoals, hok, hdel]
            rw [e3, e2]
            simp
          · have e3 : List.filterMap (evolveGoal rest)
                [⟨i, jsTrim d, specTargetDate parse dt, false⟩] =
                [⟨i, jsTrim d, specTargetDate parse dt,
                  rest.countP (isTogOf i) % 2 == 1⟩] := by
              simp [List.filterMap_cons, evolveGoal, hdel]
            have e2 : specGoals parse (GoalOp.addG i d dt n :: rest) =
                ⟨i, jsTrim d, specTargetDate parse dt,
                  rest.countP (isTogOf i) % 2 == 1⟩ :: specGoals parse rest := by
              simp [specGoals, hok, hdel]
            rw [e3, e2]
            simp
    | delG g n =>
      have happ : applyGoalOp parse (GoalOp.delG g n) ⟨some p, e⟩ =
          ⟨some { p with
                  goals := p.goals.filter (fun x => x.id != g),
                  lastUpdated := n }, e⟩ := by
        simp [applyGoalOp, handleDeleteGoal]
      obtain ⟨p', e', hrun', hg⟩ := ih
        { p with goals := p.goals.filter (fun x => x.id != g), lastUpdated := n } e
      refine ⟨p', e', by rw [hrun, happ, hrun'], ?_⟩
      rw [hg]
      simp only []
      rw [list_filterMap_filter]
      rw [list_filterMap_congr p.goals _ (evolveGoal (GoalOp.delG g n :: rest)) ?_]
      · rfl
      · intro x _
        by_cases hx : x.id = g
        · rw [evolveGoal_cons_del g n rest x hx]
          simp [hx]
        · rw [evolveGoal_cons_other (GoalOp.delG g n) rest x
            (by simp [isDelOf, Ne.symm hx]) rfl]
          simp [hx]
    | togG g n =>
      have happ : applyGoalOp parse (GoalOp.togG g n) ⟨some p, e⟩ =
          ⟨some { p with
                  goals := p.goals.map (fun x =>
                    if x.id = g then { x with completed := !x.completed } else x),
                  lastUpdated := n }, e⟩ := by
        simp [applyGoalOp, handleToggleGoalCompletion]
      obtain ⟨p', e', hrun', hg⟩ := ih
        { p with
          goals := p.goals.map (fun x =>
            if x.id = g then { x with completed := !x.completed } else x),
          lastUpdated := n } e
      refine ⟨p', e', by rw [hrun, happ, hrun'], ?_⟩
      rw [hg]
      simp only []
      rw [list_filterMap_after_map]
      rw [list_filterMap_congr p.goals _ (evolveGoal (GoalOp.togG g n :: rest)) ?_]
      · rfl
      · intro x _
        by_cases hx : x.id = g
        · rw [evolveGoal_cons_tog g n rest x hx]
          simp [hx]
        · rw [evolveGoal_cons_other (GoalOp.togG g n) rest x rfl
            (by simp [isTogOf, Ne.symm hx])]
          simp [hx]

/-- C1: starting from a freshly initialized (default) plan, any sequence of
addGoal, deleteGoal and toggleGoal operations leaves exactly the accepted
goals that are not subsequently deleted, in insertion order, each completed
exactly when the number of subsequent toggles with its id is odd (false
XOR-ed with the toggle parity); in particular toggling twice with the same
id returns every goal, completed flag included, to its original value. -/
theorem c1_goal_sequences (parse : String → Option String) (t0 : String)
    (ops : List GoalOp) :
    (∃ p' e', runGoalOps parse ops ⟨some (defaultPlan t0), none⟩ = ⟨some p', e'⟩ ∧
      p'.goals = specGoals parse ops) ∧
    (∀ (goalId n1 n2 : String) (p : StudyPlan) (e : Option String),
      ∃ p'', (handleToggleGoalCompletion goalId n2
          (handleToggleGoalCompletion goalId n1 ⟨some p, e⟩)).studyPlan = some p'' ∧
        p''.goals = p.goals) := by
  constructor
  · obtain ⟨p', e', h1, h2⟩ := runGoalOps_goals parse ops (defaultPlan t0) none
    exact ⟨p', e', h1, by simpa [defaultPlan] using h2⟩
  · intro goalId n1 n2 p e
    refine ⟨_, rfl, ?_⟩
    show ((p.goals.map _).map _ : List Goal) = p.goals
    rw [List.map_map]
    apply list_map_self
    intro x _
    obtain ⟨xid, xd, xt, xc⟩ := x
    by_cases hx : xid = goalId
    · subst hx
      simp [Function.comp]
    · simp [Function.comp, hx]

/-- Unescaping a rendered string body stops exactly at the closing quote. -/
theorem parseStrAux_escStr : ∀ (s rest : List Char),
    parseStrAux (escStr s ++ '"' :: rest) = some (s, rest) := by
  intro s
  induction s with
  | nil =>
    intro rest
    rw [show escStr [] ++ '"' :: rest = '"' :: rest from rfl, parseStrAux.eq_def]
    rfl
  | cons c cs ih =>
    intro rest
    by_cases h1 : c = '"'
    · subst h1
      rw [show escStr ('"' :: cs) ++ '"' :: rest =
          '\\' :: '"' :: (escStr cs ++ '"' :: rest) from by
        simp [escStr, escChar], parseStrAux.eq_def]
      show (parseStrAux (escStr cs ++ '"' :: rest)).map (fun p => ('"' :: p.1, p.2)) =
        some ('"' :: cs, rest)
      rw [ih rest]
      rfl
    · by_cases h2 : c = '\\'
      · subst h2
        rw [show escStr ('\\' :: cs) ++ '"' :: rest =
            '\\' :: '\\' :: (escStr cs ++ '"' :: rest) from by
          simp [escStr, escChar], parseStrAux.eq_def]
        show (parseStrAux (escStr cs ++ '"' :: rest)).map (fun p => ('\\' :: p.1, p.2)) =
          some ('\\' :: cs, rest)
        rw [ih rest]
        rfl
      · by_cases h3 : c = '\n'
        · subst h3
          rw [show escStr ('\n' :: cs) ++ '"' :: rest =
              '\\' :: 'n' :: (escStr cs ++ '"' :: rest) from by
            simp [escStr, escChar], parseStrAux.eq_def]
          show (parseStrAux (escStr cs ++ '"' :: rest)).map (fun p => ('\n' :: p.1, p.2)) =
            some ('\n' :: cs, rest)
          rw [ih rest]
          rfl
        · by_cases h4 : c = '\t'
          · subst h4
            rw [show escStr ('\t' :: cs) ++ '"' :: rest =
                '\\' :: 't' :: (escStr cs ++ '"' :: rest) from by
              simp [escStr, escChar], parseStrAux.eq_def]
            show (parseStrAux (escStr cs ++ '"' :: rest)).map (fun p => ('\t' :: p.1, p.2)) =
              some ('\t' :: cs, rest)
            rw [ih rest]
            rfl
          · by_cases h5 : c = '\r'
            · subst h5
              rw [show escStr ('\r' :: cs) ++ '"' :: rest =
                  '\\' :: 'r' :: (escStr cs ++ '"' :: rest) from by
                simp [escStr, escChar], parseStrAux.eq_def]
              show (parseStrAux (escStr cs ++ '"' :: rest)).map
                (fun p => ('\r' :: p.1, p.2)) = some ('\r' :: cs, rest)
              rw [ih rest]
              rfl
            · rw [show escStr (c :: cs) ++ '"' :: rest =
                  c :: (escStr cs ++ '"' :: rest) from by
                simp [escStr, escChar, h1, h2, h3, h4, h5], parseStrAux.eq_def]
              simp only [if_neg h1, if_neg h2]
              rw [ih rest]
              rfl

/-- Every rendered JSON value begins with a character that closes neither
an array nor an object. -/
theorem renderJson_head (j : Json) :
    ∃ c t, renderJson j = c :: t ∧ ¬ c = ']' ∧ ¬ c = '\x7d' := by
  cases j with
  | null => exact ⟨'n', _, rfl, by decide, by decide⟩
  | bool b =>
    cases b with
    | true => exact ⟨'t', _, rfl, by decide, by decide⟩
    | false => exact ⟨'f', _, rfl, by decide, by decide⟩
  | str s => exact ⟨'"', _, rfl, by decide, by decide⟩
  | arr xs => exact ⟨'[', _, rfl, by decide, by decide⟩
  | obj fs => exact ⟨'\x7b', _, rfl, by decide, by decide⟩

/-- One-step unfolding of the element parser at a non-closing head. -/
theorem parseItemsF_cons (m : Nat) (c : Char) (cs : List Char) (h : ¬ c = ']') :
    parseItemsF (m + 1) (c :: cs) =
      match parseJsonF m (c :: cs) with
      | none => none
      | some jr =>
        match jr.2 with
        | [] => none
        | d :: ds =>
          if d = ',' then
            match parseItemsF m ds with
            | none => none
            | some p => some (jr.1 :: p.1, p.2)
          else if d = ']' then some ([jr.1], ds)
          else none := by
  rw [parseItemsF.eq_def]
  simp only [if_neg h]

/-- Every JSON value has positive size. -/
theorem sizeJ_pos (j : Json) : 1 ≤ sizeJ j := by
  cases j <;> simp [sizeJ] <;> omega

mutual

/-- The size of a value is dominated by twice its rendered length. -/
theorem sizeJ_le_render : ∀ j : Json, sizeJ j ≤ 2 * (renderJson j).length
  | Json.null => by simp [sizeJ, renderJson]
  | Json.bool b => by cases b <;> simp [sizeJ, renderJson]
  | Json.str s => by
    simp only [sizeJ, renderJson, List.length_cons, List.length_append]
    omega
  | Json.arr xs => by
    have h := sizeItemsJ_le_render xs
    have e1 : sizeJ (Json.arr xs) = 2 + sizeItemsJ xs := rfl
    have e2 : renderJson (Json.arr xs) = '[' :: (renderItems xs ++ [']']) := rfl
    rw [e1, e2]
    simp only [List.length_cons, List.length_append]
    omega
  | Json.obj fs => by
    have h := sizeFieldsJ_le_render fs
    have e1 : sizeJ (Json.obj fs) = 2 + sizeFieldsJ fs := rfl
    have e2 : renderJson (Json.obj fs) = '\x7b' :: (renderFields fs ++ ['\x7d']) := rfl
    rw [e1, e2]
    simp only [List.length_cons, List.length_append]
    omega

/-- The size of array elements is dominated by twice their rendered length
plus one. -/
theorem sizeItemsJ_le_render : ∀ xs : List Json,
    sizeItemsJ xs ≤ 2 * (renderItems xs).length + 1
  | [] => by simp [sizeItemsJ]
  | [x] => by
    have h := sizeJ_le_render x
    have e1 : sizeItemsJ [x] = 1 + sizeJ x := by simp [sizeItemsJ]
    have e2 : renderItems [x] = renderJson x := rfl
    rw [e1, e2]
    omega
  | x :: y :: ys => by
    have h1 := sizeJ_le_render x
    have h2 := sizeItemsJ_le_render (y :: ys)
    have e1 : sizeItemsJ (x :: y :: ys) = 1 + sizeJ x + sizeItemsJ (y :: ys) := rfl
    have e2 : renderItems (x :: y :: ys) = renderJson x ++ (',' :: renderItems (y :: ys)) :=
      rfl
    rw [e1, e2]
    simp only [List.length_append, List.length_cons]
    omega

/-- The size of object members is dominated by twice their rendered length
plus one. -/
theorem sizeFieldsJ_le_render : ∀ fs : List (String × Json),
    sizeFieldsJ fs ≤ 2 * (renderFields fs).length + 1
  | [] => by simp [sizeFieldsJ]
  | [f] => by
    have h := sizeJ_le_render f.2
    have e1 : sizeFieldsJ [f] = 1 + sizeJ f.2 := by simp [sizeFieldsJ]
    have e2 : renderFields [f] = '"' :: (escStr f.1.data ++ ('"' :: ':' :: renderJson f.2)) :=
      rfl
    rw [e1, e2]
    simp only [List.length_cons, List.length_append]
    omega
  | f :: g :: gs => by
    have h1 := sizeJ_le_render f.2
    have h2 := sizeFieldsJ_le_render (g :: gs)
    have e1 : sizeFieldsJ (f :: g :: gs) = 1 + sizeJ f.2 + sizeFieldsJ (g :: gs) := rfl
    have e2 : renderFields (f :: g :: gs) =
        ('"' :: (escStr f.1.data ++ ('"' :: ':' :: renderJson f.2)))
          ++ (',' :: renderFields (g :: gs)) := rfl
    rw [e1, e2]
    simp only [List.length_cons, List.length_append]
    omega

end

/-- Parsing inverts rendering: with fuel at least the value's size, each
parser consumes exactly the rendered text and returns the value. -/
theorem parse_render_fuel : ∀ fuel : Nat,
    (∀ (j : Json) (rest : List Char), sizeJ j ≤ fuel →
      parseJsonF fuel (renderJson j ++ rest) = some (j, rest)) ∧
    (∀ (xs : List Json) (rest : List Char), sizeItemsJ xs + 1 ≤ fuel →
      parseItemsF fuel (renderItems xs ++ ']' :: rest) = some (xs, rest)) ∧
    (∀ (fs : List (String × Json)) (rest : List Char), sizeFieldsJ fs + 1 ≤ fuel →
      parseFieldsF fuel (renderFields fs ++ '\x7d' :: rest) = some (fs, rest)) := by
  intro fuel
  induction fuel with
  | zero =>
    refine ⟨?_, ?_, ?_⟩
    · intro j rest h
      have := sizeJ_pos j
      omega
    · intro xs rest h
      omega
    · intro fs rest h
      omega
  | succ m ih =>
    obtain ⟨ihP, ihQ, ihR⟩ := ih
    refine ⟨?_, ?_, ?_⟩
    · intro j rest hsz
      cases j with
      | null => rfl
      | bool b => cases b <;> rfl
      | str s =>
        have harg : renderJson (Json.str s) ++ rest =
            '"' :: (escStr s.data ++ '"' :: rest) := by
          rw [show renderJson (Json.str s) = '"' :: (escStr s.data ++ ['"']) from rfl]
          simp [List.cons_append, List.append_assoc]
        rw [harg,
          show parseJsonF (m + 1) ('"' :: (escStr s.data ++ '"' :: rest)) =
            match parseStrAux (escStr s.data ++ '"' :: rest) with
            | none => none
            | some p => some (Json.str (String.mk p.1), p.2) from rfl,
          parseStrAux_escStr]
      | arr xs =>
        have harg : renderJson (Json.arr xs) ++ rest =
            '[' :: (renderItems xs ++ ']' :: rest) := by
          rw [show renderJson (Json.arr xs) = '[' :: (renderItems xs ++ [']']) from rfl]
          simp [List.cons_append, List.append_assoc]
        rw [harg,
          show parseJsonF (m + 1) ('[' :: (renderItems xs ++ ']' :: rest)) =
            match parseItemsF m (renderItems xs ++ ']' :: rest) with
            | none => none
            | some p => some (Json.arr p.1, p.2) from rfl,
          ihQ xs rest (by
            rw [show sizeJ (Json.arr xs) = 2 + sizeItemsJ xs from rfl] at hsz
            omega)]
      | obj fs =>
        have harg : renderJson (Json.obj fs) ++ rest =
            '\x7b' :: (renderFields fs ++ '\x7d' :: rest) := by
          rw [show renderJson (Json.obj fs) =
            '\x7b' :: (renderFields fs ++ ['\x7d']) from rfl]
          simp [List.cons_append, List.append_assoc]
        rw [harg,
          show parseJsonF (m + 1) ('\x7b' :: (renderFields fs ++ '\x7d' :: rest)) =
            match parseFieldsF m (renderFields fs ++ '\x7d' :: rest) with
            | none => none
            | some p => some (Json.obj p.1, p.2) from rfl,
          ihR fs rest (by
            rw [show sizeJ (Json.obj fs) = 2 + sizeFieldsJ fs from rfl] at hsz
            omega)]
    · intro xs rest h
      cases xs with
      | nil => rfl
      | cons x xs2 =>
        obtain ⟨c, t, hct, hc1, hc2⟩ := renderJson_head x
        cases xs2 with
        | nil =>
          have harg : renderItems [x] ++ ']' :: rest = c :: (t ++ ']' :: rest) := by
            rw [show renderItems [x] = renderJson x from rfl, hct]
            simp [List.cons_append]
          rw [harg, parseItemsF_cons m c _ hc1]
          have hx : parseJsonF m (c :: (t ++ ']' :: rest)) = some (x, ']' :: rest) := by
            rw [show c :: (t ++ ']' :: rest) = (c :: t) ++ ']' :: rest from by simp,
              ← hct]
            refine ihP x (']' :: rest) ?_
            rw [show sizeItemsJ [x] = 1 + sizeJ x + sizeItemsJ [] from rfl,
              show sizeItemsJ ([] : List Json) = 0 from rfl] at h
            omega
          rw [hx]
          rfl
        | cons y ys =>
          have harg : renderItems (x :: y :: ys) ++ ']' :: rest =
              c :: (t ++ (',' :: (renderItems (y :: ys) ++ ']' :: rest))) := by
            rw [show renderItems (x :: y :: ys) =
              renderJson x ++ (',' :: renderItems (y :: ys)) from rfl, hct]
            simp [List.cons_append, List.append_assoc]
          rw [harg, parseItemsF_cons m c _ hc1]
          have hx : parseJsonF m
              (c :: (t ++ (',' :: (renderItems (y :: ys) ++ ']' :: rest)))) =
              some (x, ',' :: (renderItems (y :: ys) ++ ']' :: rest)) := by
            rw [show c :: (t ++ (',' :: (renderItems (y :: ys) ++ ']' :: rest))) =
              (c :: t) ++ (',' :: (renderItems (y :: ys) ++ ']' :: rest)) from by simp,
              ← hct]
            refine ihP x _ ?_
            rw [show sizeItemsJ (x :: y :: ys) =
              1 + sizeJ x + sizeItemsJ (y :: ys) from rfl] at h
            omega
          rw [hx]
          have hy : parseItemsF m (renderItems (y :: ys) ++ ']' :: rest) =
              some (y :: ys, rest) := by
            refine ihQ (y :: ys) rest ?_
            rw [show sizeItemsJ (x :: y :: ys) =
              1 + sizeJ x + sizeItemsJ (y :: ys) from rfl] at h
            have := sizeJ_pos x
            omega
          show (match parseItemsF m (renderItems (y :: ys) ++ ']' :: rest) with
            | none => none
            | some p => some (x :: p.1, p.2)) = some (x :: y :: ys, rest)
          rw [hy]
    · intro fs rest h
      cases fs with
      | nil => rfl
      | cons f fs2 =>
        obtain ⟨k, v⟩ := f
        cases fs2 with
        | nil =>
          have harg : renderFields [(k, v)] ++ '\x7d' :: rest =
              '"' :: (escStr k.data ++ '"' :: (':' :: (renderJson v ++ '\x7d' :: rest))) := by
            rw [show renderFields [(k, v)] =
              '"' :: (escStr k.data ++ ('"' :: ':' :: renderJson v)) from rfl]
            simp [List.cons_append, List.append_assoc]
          rw [harg,
            show parseFieldsF (m + 1)
                ('"' :: (escStr k.data ++ '"' :: (':' :: (renderJson v ++ '\x7d' :: rest)))) =
              match parseStrAux (escStr k.data ++ '"' ::
                  (':' :: (renderJson v ++ '\x7d' :: rest))) with
              | none => none
              | some kp =>
                match kp.2 with
                | [] => none
                | d :: ds =>
                  if d = ':' then
                    match parseJsonF m ds with
                    | none => none
                    | some vr =>
                      match vr.2 with
                      | [] => none
                      | e :: es =>
                        if e = ',' then
                          match parseFieldsF m es with
                          | none => none
                          | some p => some ((String.mk kp.1, vr.1) :: p.1, p.2)
                        else if e = '\x7d' then some ([(String.mk kp.1, vr.1)], es)
                        else none
                  else none from rfl,
            parseStrAux_escStr]
          have hv : parseJsonF m (renderJson v ++ '\x7d' :: rest) =
              some (v, '\x7d' :: rest) := by
            refine ihP v _ ?_
            rw [show sizeFieldsJ [(k, v)] = 1 + sizeJ v + sizeFieldsJ [] from rfl,
              show sizeFieldsJ ([] : List (String × Json)) = 0 from rfl] at h
            omega
          show (match parseJsonF m (renderJson v ++ '\x7d' :: rest) with
            | none => none
            | some vr =>
              match vr.2 with
              | [] => none
              | e :: es =>
                if e = ',' then
                  match parseFieldsF m es with
                  | none => none
                  | some p => some ((String.mk k.data, vr.1) :: p.1, p.2)
                else if e = '\x7d' then some ([(String.mk k.data, vr.1)], es)
                else none) = some ([(k, v)], rest)
          rw [hv]
          rfl
        | cons g gs =>
          have harg : renderFields ((k, v) :: g :: gs) ++ '\x7d' :: rest =
              '"' :: (escStr k.data ++ '"' :: (':' :: (renderJson v ++
                (',' :: (renderFields (g :: gs) ++ '\x7d' :: rest))))) := by
            rw [show renderFields ((k, v) :: g :: gs) =
              ('"' :: (escStr k.data ++ ('"' :: ':' :: renderJson v)))
                ++ (',' :: renderFields (g :: gs)) from rfl]
            simp [List.cons_append, List.append_assoc]
          rw [harg,
            show parseFieldsF (m + 1)
                ('"' :: (escStr k.data ++ '"' :: (':' :: (renderJson v ++
                  (',' :: (renderFields (g :: gs) ++ '\x7d' :: rest)))))) =
              match parseStrAux (escStr k.data ++ '"' :: (':' :: (renderJson v ++
                  (',' :: (renderFields (g :: gs) ++ '\x7d' :: rest))))) with
              | none => none
              | some kp =>
                match kp.2 with
                | [] => none
                | d :: ds =>
                  if d = ':' then
                    match parseJsonF m ds with
                    | none => none
                    | some vr =>
                      match vr.2 with
                      | [] => none
                      | e :: es =>
                        if e = ',' then
                          match parseFieldsF m es with
                          | none => none
                          | some p => some ((String.mk kp.1, vr.1) :: p.1, p.2)
                        else if e = '\x7d' then some ([(String.mk kp.1, vr.1)], es)
                        else none
                  else none from rfl,
            parseStrAux_escStr]
          have hv : parseJsonF m (renderJson v ++
              (',' :: (renderFields (g :: gs) ++ '\x7d' :: rest))) =
              some (v, ',' :: (renderFields (g :: gs) ++ '\x7d' :: rest)) := by
            refine ihP v _ ?_
            rw [show sizeFieldsJ ((k, v) :: g :: gs) =
              1 + sizeJ v + sizeFieldsJ (g :: gs) from rfl] at h
            omega
          show (match parseJsonF m (renderJson v ++
              (',' :: (renderFields (g :: gs) ++ '\x7d' :: rest))) with
            | none => none
            | some vr =>
              match vr.2 with
              | [] => none
              | e :: es =>
                if e = ',' then
                  match parseFieldsF m es with
                  | none => none
                  | some p => some ((String.mk k.data, vr.1) :: p.1, p.2)
                else if e = '\x7d' then some ([(String.mk k.data, vr.1)], es)
                else none) = some ((k, v) :: g :: gs, rest)
          rw [hv]
          have hg : parseFieldsF m (renderFields (g :: gs) ++ '\x7d' :: rest) =
              some (g :: gs, rest) := by
            refine ihR (g :: gs) rest ?_
            rw [show sizeFieldsJ ((k, v) :: g :: gs) =
              1 + sizeJ v + sizeFieldsJ (g :: gs) from rfl] at h
            have := sizeJ_pos v
            omega
          show (match parseFieldsF m (renderFields (g :: gs) ++ '\x7d' :: rest) with
            | none => none
            | some p => some ((String.mk k.data, v) :: p.1, p.2)) =
            some ((k, v) :: g :: gs, rest)
          rw [hg]

/-- Parsing a rendered complete JSON text recovers the value. -/
theorem parseJsonText_render (j : Json) :
    parseJsonText (String.mk (renderJson j)) = some j := by
  unfold parseJsonText
  rw [show (String.mk (renderJson j)).length = (renderJson j).length from rfl,
    show (String.mk (renderJson j)).data = renderJson j from rfl]
  have hp := (parse_render_fuel (2 * (renderJson j).length + 2)).1 j []
    (le_trans (sizeJ_le_render j) (by omega))
  rw [List.append_nil] at hp
  rw [hp]

/-- A goal survives the JSON round trip. -/
theorem goalFromJson_toJson (g : Goal) : goalFromJson (goalToJson g) = some g := by
  obtain ⟨i, d, td, c⟩ := g
  cases td <;> rfl

/-- A goal list survives the JSON round trip. -/
theorem optMapList_goalToJson (l : List Goal) :
    optMapList goalFromJson (l.map goalToJson) = some l := by
  induction l with
  | nil => rfl
  | cons x xs ih => simp [optMapList, goalFromJson_toJson, ih]

/-- A subject list survives the JSON round trip. -/
theorem optMapList_strToJson (l : List String) :
    optMapList jsonToStr (l.map Json.str) = some l := by
  induction l with
  | nil => rfl
  | cons x xs ih => simp [optMapList, jsonToStr, ih]

/-- A plan survives the JSON value round trip. -/
theorem planFromJson_toJson (p : StudyPlan) : planFromJson (planToJson p) = some p := by
  obtain ⟨u, gs, ss, lu⟩ := p
  simp [planToJson, planFromJson, optMapList_goalToJson, optMapList_strToJson]

/-- C8: serializing a plan to its persisted text form and deserializing
that text reproduces a plan equal to the original: same userId, same goals
in the same order with all fields, same subjects in order, same
lastUpdated. -/
theorem c8_serialize_roundtrip (p : StudyPlan) :
    parsePlanText (serializePlan p) = some p := by
  unfold parsePlanText serializePlan
  rw [parseJsonText_render]
  simp [planFromJson_toJson]

end StudyAI
